import Mathlib

set_option maxHeartbeats 1000000
set_option linter.unusedSectionVars false

namespace NIH

/- ===================================================================
   Duplicate detection core.

   Shallow embedding of the pandas primitives used by
   `src/metrics/metrics_dedupe.py` and `src/aggregation.py`:
   `df.duplicated(keep=False)`, `df.duplicated(keep='first')` and
   `df.drop_duplicates(...)` (keep='first').  A table is reduced to the
   list of its row keys (the full row for full-row equality, the tuple
   of composite-key cells for composite-key equality); the pandas
   operations act on that key list.
   =================================================================== -/

variable {α : Type} [DecidableEq α]

/-- Model of `df.duplicated(keep=False)`: position `i` is marked exactly
when its key occurs at least twice in the whole list. -/
def dupMaskAll (l : List α) : List Bool :=
  l.map (fun k => decide (2 ≤ l.count k))

/-- Helper for `df.duplicated(keep='first')`: `seen` holds the keys of the
rows already scanned; a position is marked when its key occurred earlier. -/
def dupMaskFirstAux (seen : List α) : List α → List Bool
  | [] => []
  | k :: t => decide (k ∈ seen) :: dupMaskFirstAux (k :: seen) t

/-- Model of `df.duplicated(keep='first')`. -/
def dupMaskFirst (l : List α) : List Bool := dupMaskFirstAux [] l

/-- Helper for `df.drop_duplicates(...)` with `keep='first'`:
keeps the first occurrence of every key. -/
def dropDupsAux (seen : List α) : List α → List α
  | [] => []
  | k :: t => if k ∈ seen then dropDupsAux (k :: seen) t else k :: dropDupsAux (k :: seen) t

/-- Model of `df.drop_duplicates(...)` with `keep='first'`. -/
def dropDups (l : List α) : List α := dropDupsAux [] l

/-- `duplicated(keep=False).sum()`. -/
def totalDuplicates (l : List α) : Nat := (dupMaskAll l).count true

/-- `duplicated(keep='first').sum()`. -/
def extraDuplicates (l : List α) : Nat := (dupMaskFirst l).count true

/-- `df[duplicates_all].drop_duplicates(...).shape[0]`: number of distinct
key patterns among the rows participating in any duplicate group. -/
def uniqueDuplicateRows (l : List α) : Nat :=
  (dropDups (l.filter (fun k => 2 ≤ l.count k))).length

/-- Spec-side comparator, from the claim's wording: a duplicate group is a
maximal set of at least two rows equal under the relevant equality, so the
number of groups is the number of distinct keys occurring at least twice
(one first occurrence per group). -/
def numDuplicateGroups (l : List α) : Nat :=
  (dropDups l).countP (fun k => 2 ≤ l.count k)

theorem dupMaskFirstAux_count_add_length (seen t) :
    ((dupMaskFirstAux (α := α) seen t).count true) + (dropDupsAux seen t).length = t.length := by
  induction t generalizing seen with
  | nil => rfl
  | cons k t ih =>
    have h2 := ih (k :: seen)
    by_cases h : k ∈ seen
    · simp only [dupMaskFirstAux, dropDupsAux, if_pos h, decide_eq_true h, List.length_cons,
        List.count_cons_self]
      omega
    · have hne : (true : Bool) ≠ false := by decide
      simp only [dupMaskFirstAux, dropDupsAux, if_neg h, decide_eq_false h, List.length_cons,
        List.count_cons_of_ne hne]
      omega

theorem length_dropDupsAux_le (seen t) :
    (dropDupsAux (α := α) seen t).length ≤ t.length := by
  induction t generalizing seen with
  | nil => simp [dropDupsAux]
  | cons k t ih =>
    by_cases h : k ∈ seen
    · simp only [dropDupsAux, if_pos h]
      exact Nat.le_succ_of_le (ih (k :: seen))
    · simp only [dropDupsAux, if_neg h, List.length_cons]
      exact Nat.succ_le_succ (ih (k :: seen))

theorem mem_of_mem_dropDupsAux {seen t} {x : α} (h : x ∈ dropDupsAux seen t) : x ∈ t := by
  induction t generalizing seen with
  | nil => simp [dropDupsAux] at h
  | cons k t ih =>
    by_cases hk : k ∈ seen
    · simp only [dropDupsAux, if_pos hk] at h
      exact List.mem_cons_of_mem _ (ih h)
    · simp only [dropDupsAux, if_neg hk, List.mem_cons] at h
      rcases h with h | h
      · exact h ▸ List.mem_cons_self _ _
      · exact List.mem_cons_of_mem _ (ih h)

theorem dropDupsAux_congr (s₁ s₂ t : List α) (h : ∀ v, v ∈ s₁ ↔ v ∈ s₂) :
    dropDupsAux s₁ t = dropDupsAux s₂ t := by
  induction t generalizing s₁ s₂ with
  | nil => rfl
  | cons k t ih =>
    have hmem : (k ∈ s₁) = (k ∈ s₂) := propext (h k)
    by_cases hk : k ∈ s₁
    · simp only [dropDupsAux, if_pos hk, if_pos (hmem ▸ hk)]
      exact ih _ _ (fun v => by simp only [List.mem_cons, h v])
    · simp only [dropDupsAux, if_neg hk, if_neg (hmem ▸ hk)]
      exact congrArg (k :: ·) (ih _ _ (fun v => by simp only [List.mem_cons, h v]))

theorem dropDupsAux_filter_out (a : α) (s t) :
    dropDupsAux (a :: s) t = dropDupsAux s (t.filter (fun x => x ≠ a)) := by
  induction t generalizing s with
  | nil => rfl
  | cons k t ih =>
    by_cases hka : k = a
    · subst hka
      simp only [dropDupsAux, if_pos (List.mem_cons_self k s), List.filter_cons,
        decide_eq_true_eq]
      rw [if_neg (by simp)]
      rw [dropDupsAux_congr (k :: k :: s) (k :: s) t
        (by intro v; simp only [List.mem_cons]; tauto)]
      exact ih s
    · simp only [List.filter_cons, decide_eq_true_eq]
      rw [if_pos (by simp [hka])]
      by_cases hks : k ∈ s
      · simp only [dropDupsAux, if_pos (List.mem_cons_of_mem a hks), if_pos hks]
        rw [dropDupsAux_congr (k :: a :: s) (a :: k :: s) t
          (by intro v; simp only [List.mem_cons]; tauto)]
        exact ih (k :: s)
      · have hkas : ¬ k ∈ a :: s := by
          simp only [List.mem_cons]
          tauto
        simp only [dropDupsAux, if_neg hkas, if_neg hks]
        rw [dropDupsAux_congr (k :: a :: s) (a :: k :: s) t
          (by intro v; simp only [List.mem_cons]; tauto)]
        exact congrArg (k :: ·) (ih (k :: s))

theorem dropDups_cons (k : α) (t : List α) :
    dropDups (k :: t) = k :: dropDups (t.filter (fun x => x ≠ k)) := by
  show dropDupsAux [] (k :: t) = _
  simp only [dropDupsAux, if_neg (List.not_mem_nil k)]
  rw [dropDupsAux_filter_out]
  rfl

theorem filter_dropDupsAux (p : α → Bool) :
    ∀ (t : List α) (s₁ s₂ : List α), (∀ v, p v = true → (v ∈ s₁ ↔ v ∈ s₂)) →
    dropDupsAux s₁ (t.filter p) = (dropDupsAux s₂ t).filter p := by
  intro t
  induction t with
  | nil => intro s₁ s₂ _; rfl
  | cons k t ih =>
    intro s₁ s₂ h
    by_cases hp : p k = true
    · have hmem : (k ∈ s₁) ↔ (k ∈ s₂) := h k hp
      by_cases hk : k ∈ s₁
      · rw [List.filter_cons_of_pos hp]
        simp only [dropDupsAux, if_pos hk, if_pos (hmem.mp hk)]
        exact ih (k :: s₁) (k :: s₂) (fun v hv => by simp only [List.mem_cons, h v hv])
      · rw [List.filter_cons_of_pos hp]
        simp only [dropDupsAux, if_neg hk, if_neg (fun hc => hk (hmem.mpr hc))]
        rw [List.filter_cons_of_pos hp]
        exact congrArg (k :: ·)
          (ih (k :: s₁) (k :: s₂) (fun v hv => by simp only [List.mem_cons, h v hv]))
    · rw [List.filter_cons_of_neg hp]
      have step : ∀ s : List α, (dropDupsAux s (k :: t)).filter p
          = (dropDupsAux (k :: s) t).filter p := by
        intro s
        by_cases hks : k ∈ s
        · simp only [dropDupsAux, if_pos hks]
        · simp only [dropDupsAux, if_neg hks, List.filter_cons_of_neg hp]
      rw [step s₂]
      exact ih s₁ (k :: s₂) (fun v hv => by
        have hvk : v ≠ k := fun hc => hp (hc ▸ hv)
        simp only [List.mem_cons, h v hv]
        constructor
        · exact fun hv2 => Or.inr hv2
        · rintro (hv2 | hv2)
          · exact absurd hv2 hvk
          · exact hv2)

theorem uniqueDuplicateRows_eq_numDuplicateGroups (l : List α) :
    uniqueDuplicateRows l = numDuplicateGroups l := by
  unfold uniqueDuplicateRows numDuplicateGroups dropDups
  rw [filter_dropDupsAux _ l [] [] (fun _ _ => Iff.rfl)]
  rw [← List.countP_eq_length_filter]

theorem count_true_map (f : α → Bool) (l : List α) : (l.map f).count true = l.countP f := by
  induction l with
  | nil => rfl
  | cons a l ih =>
    rw [List.map_cons, List.count_cons, List.countP_cons, ih]
    cases hf : f a <;> simp [hf]

theorem countP_split (l : List α) (p q : α → Bool) :
    l.countP p = (l.filter q).countP p + (l.filter (fun a => !(q a))).countP p := by
  induction l with
  | nil => rfl
  | cons a l ih =>
    cases hq : q a
    · rw [List.filter_cons_of_neg (by simp [hq]), List.filter_cons_of_pos (by simp [hq]),
        List.countP_cons, List.countP_cons, ih]
      omega
    · rw [List.filter_cons_of_pos (by simp [hq]), List.filter_cons_of_neg (by simp [hq]),
        List.countP_cons, List.countP_cons, ih]
      omega

theorem length_filter_ne (k : α) (t : List α) :
    (t.filter (fun x => x ≠ k)).length + t.count k = t.length := by
  induction t with
  | nil => rfl
  | cons a t ih =>
    by_cases ha : a = k
    · subst ha
      rw [List.filter_cons_of_neg (by simp), List.count_cons_self, List.length_cons]
      omega
    · rw [List.filter_cons_of_pos (by simp [ha]),
        List.count_cons_of_ne (fun hc => ha hc.symm), List.length_cons, List.length_cons]
      omega

theorem count_filter_ne_of_ne {x k : α} (t : List α) (hxk : x ≠ k) :
    (t.filter (fun a => a ≠ k)).count x = t.count x := by
  exact List.count_filter (by simp [hxk])

theorem totalDuplicates_decomp (k : α) (t : List α) :
    totalDuplicates (k :: t) =
      (if 2 ≤ (k :: t).count k then (k :: t).count k else 0)
        + totalDuplicates (t.filter (fun x => x ≠ k)) := by
  have hmain : totalDuplicates (k :: t)
      = (k :: t).countP (fun x => decide (2 ≤ (k :: t).count x)) := count_true_map _ _
  have hsplit := countP_split (k :: t) (fun x => decide (2 ≤ (k :: t).count x))
    (fun a => decide (a = k))
  have heq : (k :: t).filter (fun a => decide (a = k))
      = List.replicate ((k :: t).count k) k := List.filter_eq _ k
  have hrep : (List.replicate ((k :: t).count k) k).countP
        (fun x => decide (2 ≤ (k :: t).count x))
      = if 2 ≤ (k :: t).count k then (k :: t).count k else 0 := by
    rw [List.countP_replicate]
    simp
  have hne : ((k :: t).filter (fun a => !(decide (a = k))))
      = t.filter (fun x => x ≠ k) := by
    rw [List.filter_cons_of_neg (by simp)]
    apply List.filter_congr
    intro x _
    simp
  have hcongr : (t.filter (fun x => x ≠ k)).countP (fun x => decide (2 ≤ (k :: t).count x))
      = (t.filter (fun x => x ≠ k)).countP
          (fun x => decide (2 ≤ (t.filter (fun a => a ≠ k)).count x)) := by
    apply List.countP_congr
    intro x hx
    have hx' := List.mem_filter.mp hx
    have hxk : x ≠ k := by simpa using hx'.2
    rw [List.count_cons_of_ne hxk, count_filter_ne_of_ne t hxk]
  have hlast : totalDuplicates (t.filter (fun x => x ≠ k))
      = (t.filter (fun x => x ≠ k)).countP
          (fun x => decide (2 ≤ (t.filter (fun a => a ≠ k)).count x)) := count_true_map _ _
  rw [hmain, hsplit, heq, hrep, hne, hcongr, hlast]

theorem extraDuplicates_eq (l : List α) :
    extraDuplicates l + (dropDups l).length = l.length :=
  dupMaskFirstAux_count_add_length [] l

theorem extraDuplicates_decomp (k : α) (t : List α) :
    extraDuplicates (k :: t)
      = ((k :: t).count k - 1) + extraDuplicates (t.filter (fun x => x ≠ k)) := by
  have e1 := extraDuplicates_eq (k :: t)
  have e2 := extraDuplicates_eq (t.filter (fun x => x ≠ k))
  have hdd : (dropDups (k :: t)).length
      = 1 + (dropDups (t.filter (fun x => x ≠ k))).length := by
    rw [dropDups_cons, List.length_cons]
    omega
  have hflen := length_filter_ne k t
  have hcnt : (k :: t).count k = t.count k + 1 := List.count_cons_self k t
  have hle1 : (dropDups (t.filter (fun x => x ≠ k))).length
      ≤ (t.filter (fun x => x ≠ k)).length := length_dropDupsAux_le [] _
  have hlc := List.length_cons k t
  omega

theorem numDuplicateGroups_decomp (k : α) (t : List α) :
    numDuplicateGroups (k :: t)
      = (if 2 ≤ (k :: t).count k then 1 else 0)
        + numDuplicateGroups (t.filter (fun x => x ≠ k)) := by
  unfold numDuplicateGroups
  rw [dropDups_cons, List.countP_cons]
  have hcongr : (dropDups (t.filter (fun x => x ≠ k))).countP
        (fun x => decide (2 ≤ (k :: t).count x))
      = (dropDups (t.filter (fun x => x ≠ k))).countP
          (fun x => decide (2 ≤ (t.filter (fun a => a ≠ k)).count x)) := by
    apply List.countP_congr
    intro x hx
    have hx' := List.mem_filter.mp (mem_of_mem_dropDupsAux hx)
    have hxk : x ≠ k := by simpa using hx'.2
    rw [List.count_cons_of_ne hxk, count_filter_ne_of_ne t hxk]
  rw [hcongr]
  simp only [decide_eq_true_eq]
  omega

/-- Duplicate accounting, first half of the spec property:
`total_duplicates == extra_duplicates + number_of_duplicate_groups`
for every key list. -/
theorem total_eq_extra_add_groups (l : List α) :
    totalDuplicates l = extraDuplicates l + numDuplicateGroups l := by
  generalize hN : l.length = N
  induction N using Nat.strong_induction_on generalizing l with
  | _ N ih =>
    cases l with
    | nil => rfl
    | cons k t =>
      have hlen : (t.filter (fun x => x ≠ k)).length < N := by
        have h1 := List.length_filter_le (fun x => decide (x ≠ k)) t
        have h2 := List.length_cons k t
        omega
      have IH := ih _ hlen (t.filter (fun x => x ≠ k)) rfl
      rw [totalDuplicates_decomp, extraDuplicates_decomp, numDuplicateGroups_decomp]
      have hcnt : (k :: t).count k = t.count k + 1 := List.count_cons_self k t
      by_cases h2 : 2 ≤ (k :: t).count k
      · simp only [if_pos h2]
        omega
      · simp only [if_neg h2]
        omega

/- ===================================================================
   Python string fragment (over List Char).

   `str.strip`, `str.lower`, `str.upper` are modeled for the ASCII
   fragment the claims exercise; `unidecode.unidecode` maps ASCII to
   itself and carries an abridged transliteration table (unmapped
   non-ASCII code points go to the empty string, as in the library).
   =================================================================== -/

/-- Python whitespace (ASCII fragment of `str.strip` / `\s`). -/
def pyIsSpace (c : Char) : Bool :=
  c = ' ' || c = '\t' || c = '\n' || c = '\r' || c = '\x0b' || c = '\x0c'

def lowerPairs : List (Char × Char) :=
  [('A','a'), ('B','b'), ('C','c'), ('D','d'), ('E','e'), ('F','f'), ('G','g'),
   ('H','h'), ('I','i'), ('J','j'), ('K','k'), ('L','l'), ('M','m'), ('N','n'),
   ('O','o'), ('P','p'), ('Q','q'), ('R','r'), ('S','s'), ('T','t'), ('U','u'),
   ('V','v'), ('W','w'), ('X','x'), ('Y','y'), ('Z','z')]

def assocGet (ps : List (Char × Char)) (c : Char) : Option Char :=
  match ps with
  | [] => none
  | p :: t => if p.1 = c then some p.2 else assocGet t c

/-- `str.lower`, character-wise (ASCII fragment). -/
def pyLowerChar (c : Char) : Char := (assocGet lowerPairs c).getD c

def upperPairs : List (Char × Char) := lowerPairs.map (fun p => (p.2, p.1))

/-- `str.upper`, character-wise (ASCII fragment). -/
def pyUpperChar (c : Char) : Char := (assocGet upperPairs c).getD c

/-- Model of `unidecode.unidecode`, character-wise: ASCII maps to itself;
the library's transliteration table is abridged to representative Latin
entries, and unmapped non-ASCII code points go to the empty string. -/
def unidecChar (c : Char) : List Char :=
  if c.toNat < 128 then [c]
  else if c = 'é' then ['e']
  else if c = 'è' then ['e']
  else if c = 'ü' then ['u']
  else if c = 'ñ' then ['n']
  else if c = 'ß' then ['s', 's']
  else []

def unidecL (l : List Char) : List Char := (l.map unidecChar).flatten

def stripLeftL (l : List Char) : List Char := l.dropWhile pyIsSpace

/-- Python `str.strip()`: drop whitespace from both ends. -/
def pyStripL (l : List Char) : List Char :=
  ((stripLeftL l).reverse.dropWhile pyIsSpace).reverse

/-- `unidecode(keyword.strip().lower())`, the normalization opening
`generate_keyword_variants`. -/
def pynormalizeL (l : List Char) : List Char := unidecL ((pyStripL l).map pyLowerChar)

def pynormalize (s : String) : String := ⟨pynormalizeL s.data⟩

def pyStripStr (s : String) : String := ⟨pyStripL s.data⟩

def pyUpperStr (s : String) : String := ⟨s.data.map pyUpperChar⟩

def pyLowerStr (s : String) : String := ⟨s.data.map pyLowerChar⟩

/-- Code-point comparison of character lists: Python's `<=` on strings. -/
def charListLeB : List Char → List Char → Bool
  | [], _ => true
  | _ :: _, [] => false
  | a :: as, b :: bs =>
    if a.toNat < b.toNat then true
    else if b.toNat < a.toNat then false
    else charListLeB as bs

def strLeB (s t : String) : Bool := charListLeB s.data t.data

/- ===================================================================
   Keyword Variant Generator
   (`src/keywords/keywords_keywords_generator.py`).
   =================================================================== -/

/-- `"'s" in original`. -/
def contains2 (a b : Char) : List Char → Bool
  | [] => false
  | [_] => false
  | x :: y :: t => (x = a && y = b) || contains2 a b (y :: t)

/-- `original.replace("'s", "s")`: all non-overlapping occurrences,
left to right. -/
def replaceApostropheS : List Char → List Char
  | [] => []
  | [x] => [x]
  | x :: y :: t =>
    if x = '\'' && y = 's' then 's' :: replaceApostropheS t
    else x :: replaceApostropheS (y :: t)

/-- `\w` of Python's `re` (ASCII fragment): letters, digits, underscore. -/
def isWordChar (c : Char) : Bool := c.isAlpha || c.isDigit || c = '_'

/-- `re.sub(r"[^\w\s]", "", original)`. -/
def stripPunctL (l : List Char) : List Char :=
  l.filter (fun c => isWordChar c || pyIsSpace c)

def endsWithOneOf (sufs : List (List Char)) (l : List Char) : Bool :=
  sufs.any (fun s => s.isSuffixOf l)

/-- Python-set insertion: `variants.add(v)`.  Python set iteration order is
unspecified, so the model keeps first-insertion order with duplicates
suppressed; every claim treats the result as a set. -/
def addVar (vs : List (List Char)) (v : List Char) : List (List Char) :=
  if v ∈ vs then vs else vs ++ [v]

/-- Body of `generate_keyword_variants` after the normalization line. -/
def variantsOfL (original : List Char) : List (List Char) :=
  let v1 := [original]
  let v2 := if !(['s'].isSuffixOf original) then addVar v1 (original ++ ['s']) else v1
  let v3 :=
    if contains2 '\'' 's' original then addVar v2 (replaceApostropheS original) else v2
  let v4 :=
    if original.contains '-' then
      let hyphenSpace := original.map (fun c => if c = '-' then ' ' else c)
      addVar (addVar v3 hyphenSpace) (hyphenSpace ++ ['s'])
    else v3
  let keywordClean := stripPunctL original
  if ['y'].isSuffixOf keywordClean
      && !(endsWithOneOf [['a','y'], ['e','y'], ['o','y'], ['u','y']] keywordClean) then
    addVar v4 (keywordClean.dropLast ++ ['i', 'e', 's'])
  else if endsWithOneOf [['s'], ['x'], ['z'], ['c','h'], ['s','h']] keywordClean then
    addVar v4 (keywordClean ++ ['e', 's'])
  else
    addVar v4 (keywordClean ++ ['s'])

/-- Shallow embedding of `generate_keyword_variants`. -/
def generate_keyword_variants (keyword : String) : List String :=
  (variantsOfL (pynormalizeL keyword.data)).map (fun l => ⟨l⟩)

/- ===================================================================
   Tabular data model: pandas DataFrames with named columns and
   positional rows; cells are strings, integers, NaN, or the
   list/tuple values produced by enrichment and dedup conversion.
   =================================================================== -/

inductive Value : Type
  | str (s : String)
  | int (n : Int)
  | null
  | list (xs : List String)
  | tuple (xs : List String)
  deriving DecidableEq, Repr

structure DataFrame : Type where
  columns : List String
  rows : List (List Value)
  deriving DecidableEq, Repr

def colIndex (cols : List String) (c : String) : Option Nat :=
  cols.findIdx? (fun x => x = c)

/-- Cell access by column name; positions a row holds nothing for read as
NaN (pandas missing data). -/
def getCell (df : DataFrame) (row : List Value) (c : String) : Value :=
  match colIndex df.columns c with
  | some i => (row[i]?).getD Value.null
  | none => Value.null

/-- Python `str()` / pandas `astype(str)` on cell values (list/tuple
rendering approximate, unused by the claims). -/
def pyStr : Value → String
  | .str s => s
  | .int n => toString n
  | .null => "nan"
  | .list xs => "[" ++ String.intercalate ", " xs ++ "]"
  | .tuple xs => "(" ++ String.intercalate ", " xs ++ ")"


/- ===================================================================
   Shallow embedding of `src/aggregation.py`.
   =================================================================== -/

/-- `normalize_columns`: string-cast, strip and uppercase the values of the
named columns; absent columns are left untouched. -/
def normalize_columns (df : DataFrame) (cols : List String) : DataFrame :=
  { df with rows := df.rows.map (fun r =>
      (List.zip df.columns r).map (fun p =>
        if p.1 ∈ cols then Value.str (pyUpperStr (pyStripStr (pyStr p.2))) else p.2)) }

structure DedupStats : Type where
  unique_duplicate_rows : Nat
  total_duplicates : Nat
  extra_duplicates : Nat
  deriving DecidableEq, Repr

/-- Composite key of a row: the tuple of its cells in the given columns. -/
def rowKey (df : DataFrame) (combo : List String) (r : List Value) : List Value :=
  combo.map (getCell df r)

/-- `drop_duplicates(subset=...)` over rows, keeping the first row of each
key pattern. -/
def dropDupsByAux {β : Type} (key : β → α) (seen : List α) : List β → List β
  | [] => []
  | r :: t =>
    if key r ∈ seen then dropDupsByAux key (key r :: seen) t
    else r :: dropDupsByAux key (key r :: seen) t

def dropDupsBy {β : Type} (key : β → α) (l : List β) : List β := dropDupsByAux key [] l

/-- Rank used to order mixed-type group keys (model-internal ordering for
pandas `groupby(sort=True)`). -/
def valueRank : Value → Nat
  | .null => 0
  | .int _ => 1
  | .str _ => 2
  | .list _ => 3
  | .tuple _ => 4

def strListLeB : List String → List String → Bool
  | [], _ => true
  | _ :: _, [] => false
  | a :: as, b :: bs =>
    if strLeB a b && !(strLeB b a) then true
    else if strLeB b a && !(strLeB a b) then false
    else strListLeB as bs

def valueLeB (a b : Value) : Bool :=
  if valueRank a < valueRank b then true
  else if valueRank b < valueRank a then false
  else match a, b with
    | .null, .null => true
    | .int m, .int n => m ≤ n
    | .str s, .str t => strLeB s t
    | .list xs, .list ys => strListLeB xs ys
    | .tuple xs, .tuple ys => strListLeB xs ys
    | _, _ => true

/-- `unique.groupby("PROJECT_NUMBER").size().reset_index(name=...)`: distinct
group keys with their multiplicities; pandas sorts the keys (`sort=True`)
and drops null keys (`dropna=True`). -/
def groupbySize (keys : List Value) : List (Value × Nat) :=
  let nonnull := keys.filter (fun v => v ≠ Value.null)
  (List.insertionSort (fun a b => valueLeB a b = true) (dropDups nonnull)).map
    (fun k => (k, nonnull.count k))

/-- Shallow embedding of `aggregation.count_unique_pairs`.  The body's
`try/except` is modeled by the column-presence condition: pandas raises
KeyError — caught by the `except`, which returns the empty frame and the
empty summary `{}` — exactly when a combo column (for `duplicated` /
`drop_duplicates`) or `"PROJECT_NUMBER"` (for `groupby`) is missing. -/
def count_unique_pairs (df : DataFrame) (combo_cols : List String) (count_name : String) :
    DataFrame × List (String × DedupStats) :=
  if (∀ c ∈ combo_cols, c ∈ df.columns) ∧ "PROJECT_NUMBER" ∈ df.columns then
    let keys := df.rows.map (rowKey df combo_cols)
    let stats : DedupStats :=
      { unique_duplicate_rows := uniqueDuplicateRows keys
        total_duplicates := totalDuplicates keys
        extra_duplicates := extraDuplicates keys }
    let unique := dropDupsBy (rowKey df combo_cols) df.rows
    let groupKeys := unique.map (fun r => getCell df r "PROJECT_NUMBER")
    let count_df : DataFrame :=
      { columns := ["PROJECT_NUMBER", count_name]
        rows := (groupbySize groupKeys).map (fun p => [p.1, Value.int (Int.ofNat p.2)]) }
    (count_df, [(count_name, stats)])
  else
    ({ columns := ["PROJECT_NUMBER", count_name], rows := [] }, [])

/-- Cell conversion in `metrics_dedupe.remove_true_duplicates_from_df`:
list-valued cells become tuples so rows are hashable.  The source converts
column-wise (columns containing at least one list); mapping every cell is
extensionally identical because the conversion is the identity on non-list
cells. -/
def convertListCell : Value → Value
  | .list xs => .tuple xs
  | v => v

/-- Shallow embedding of `metrics_dedupe.remove_true_duplicates_from_df`:
full-row duplicate statistics, then removal of all but the first occurrence
of each fully duplicated row. -/
def remove_true_duplicates_from_df (df : DataFrame) :
    DataFrame × List (String × DedupStats) :=
  let conv := df.rows.map (fun r => r.map convertListCell)
  let stats : DedupStats :=
    { unique_duplicate_rows := uniqueDuplicateRows conv
      total_duplicates := totalDuplicates conv
      extra_duplicates := extraDuplicates conv }
  let deduped := if 0 < stats.total_duplicates then dropDups conv else conv
  ({ df with rows := deduped }, [("Aggregate_output", stats)])

/-- `left.merge(right, on=key, how="left")`: every left row paired with each
matching right row, or kept once with null-filled right columns when
unmatched.  (Collision suffixing of shared non-key column names is not
modeled; the aggregation call sites never collide.) -/
def mergeLeft (left right : DataFrame) (key : String) : DataFrame :=
  let rightCols := right.columns.filter (fun c => c ≠ key)
  { columns := left.columns ++ rightCols
    rows := (left.rows.map (fun lr =>
      let kv := getCell left lr key
      let hits := right.rows.filter (fun rr => getCell right rr key = kv)
      if hits.isEmpty then [lr ++ rightCols.map (fun _ => Value.null)]
      else hits.map (fun rr => lr ++ rightCols.map (getCell right rr)))).flatten }

/-- `df[col].fillna(0).astype(int)` for an integer-or-NaN count column. -/
def fillnaZeroInt (df : DataFrame) (col : String) : DataFrame :=
  { df with rows := df.rows.map (fun r =>
      (List.zip df.columns r).map (fun p =>
        if p.1 = col then
          match p.2 with
          | Value.null => Value.int 0
          | v => v
        else p.2)) }

/-- `df.rename(columns={old: newName})`. -/
def renameColumn (df : DataFrame) (old newName : String) : DataFrame :=
  { df with columns := df.columns.map (fun c => if c = old then newName else c) }

inductive PyError : Type
  | keyError (k : String)
  | nameError (v : String)
  deriving DecidableEq, Repr

/-- One outcome-category block of `aggregate_project_outputs`.  Returns the
updated aggregate table, and `none` when the category is absent from
`appended_dict` (the block is skipped, so the Python local `*_summary` is
never bound), `some summaries` otherwise.  The per-category `try/except`
around the merge is modeled by the key-presence condition: the merge raises
(caught, leaving the aggregate unchanged but the summary bound) exactly when
`"PROJECT_NUMBER"` is missing from a side. -/
def processOutcome (agg : DataFrame) (tbl? : Option DataFrame)
    (normCols comboCols : List String) (countName : String) :
    DataFrame × Option (List (String × DedupStats)) :=
  match tbl? with
  | none => (agg, none)
  | some tbl =>
    let normalized := normalize_columns tbl normCols
    let cu := count_unique_pairs normalized comboCols countName
    if "PROJECT_NUMBER" ∈ agg.columns ∧ "PROJECT_NUMBER" ∈ cu.1.columns then
      let merged := mergeLeft agg cu.1 "PROJECT_NUMBER"
      (fillnaZeroInt merged countName, some cu.2)
    else
      (agg, some cu.2)

/-- Shallow embedding of `aggregation.aggregate_project_outputs`.
`linked_merged["PRJ_PRJABS"]` raises KeyError when the linked base table is
absent; the final summary accumulation
`{**pub_summary, **patent_summary, **study_summary}` raises NameError when
any of the three locals was never bound, i.e. when that outcome category was
absent from `appended_dict`. -/
def aggregate_project_outputs (linked_merged appended_dict : List (String × DataFrame)) :
    Except PyError (DataFrame × List (String × DedupStats)) :=
  match linked_merged.lookup "PRJ_PRJABS" with
  | none => .error (.keyError "PRJ_PRJABS")
  | some prj =>
    let agg0 := renameColumn prj "PROJECT_NUMBER_x" "PROJECT_NUMBER"
    let step1 := processOutcome agg0 (appended_dict.lookup "PUBLINK")
      ["PMID", "PROJECT_NUMBER"] ["PROJECT_NUMBER", "PMID"] "publication count"
    let step2 := processOutcome step1.1 (appended_dict.lookup "Patents")
      ["PROJECT_NUMBER", "PATENT_ID"] ["PROJECT_NUMBER", "PATENT_ID"] "patent count"
    let step3 := processOutcome step2.1 (appended_dict.lookup "ClinicalStudies")
      ["PROJECT_NUMBER", "ClinicalTrials.gov ID"] ["PROJECT_NUMBER", "ClinicalTrials.gov ID"]
      "clinical study count"
    match step1.2, step2.2, step3.2 with
    | some ps, some pas, some ss => .ok (step3.1, ps ++ pas ++ ss)
    | _, _, _ => .error (.nameError "summary")

/- ===================================================================
   Shallow embedding of
   `src/preprocess/preprocess_transform.append_dataframes_by_folder`.
   =================================================================== -/

structure FolderSummary : Type where
  folder : String
  num_files : Nat
  unexpected_columns : List String
  new_columns_added : Nat
  skipped : Bool
  total_rows : Nat
  total_columns : Nat
  error : Option String
  unexpected_columns_added : Option Nat
  deriving DecidableEq, Repr

/-- `_initialize_folder_summary` (the `unexpected_columns_added` key is only
added to the dict inside the `try` block, hence `Option`). -/
def _initialize_folder_summary (folder : String) (num_files : Nat) : FolderSummary :=
  { folder := folder, num_files := num_files, unexpected_columns := [],
    new_columns_added := 0, skipped := false, total_rows := 0, total_columns := 0,
    error := none, unexpected_columns_added := none }

/-- `{col for df in dfs.values() for col in df.columns}` as a deduplicated
list in first-appearance order. -/
def allColumnsOf (dfs : List DataFrame) : List String :=
  dropDups ((dfs.map (fun d => d.columns)).flatten)

/-- `sorted(all_columns - common_columns)`: the union members missing from
at least one table, sorted by code point as Python `sorted` does. -/
def unexpectedColumnsOf (dfs : List DataFrame) : List String :=
  List.insertionSort (fun a b => strLeB a b = true)
    ((allColumnsOf dfs).filter (fun c => !(dfs.all (fun d => decide (c ∈ d.columns)))))

/-- Column order of `pd.concat` (outer join, `sort=False`): first appearance
across the input tables. -/
def addCols (acc : List String) (cols : List String) : List String :=
  cols.foldl (fun a c => if c ∈ a then a else a ++ [c]) acc

def concatColumns (dfs : List DataFrame) : List String :=
  dfs.foldl (fun acc d => addCols acc d.columns) []

/-- `pd.concat(list(dfs.values()), ignore_index=True)`: rows stacked in
input order, aligned on the unioned columns, null-filled where a source
table lacks a column. -/
def concatDfs (dfs : List DataFrame) : DataFrame :=
  let cols := concatColumns dfs
  { columns := cols
    rows := (dfs.map (fun d => d.rows.map (fun r => cols.map (getCell d r)))).flatten }

/-- Per-folder body of `append_dataframes_by_folder`'s loop.  With zero
tables, `set.intersection(*(...))` is called with no arguments and raises
TypeError, caught by the loop's `except`, which stores the message in
`summary["error"]` (`skipped` stays False) and adds nothing to
`appended_dict`; with at least one table no step of the `try` block can
raise. -/
def processFolder (force_append : Bool) (folder : String) (dfs : List DataFrame) :
    FolderSummary × Option DataFrame :=
  let base := _initialize_folder_summary folder dfs.length
  match dfs with
  | [] =>
    ({ base with error := some "descriptor 'intersection' of 'set' object needs an argument" },
     none)
  | _ :: _ =>
    let unexpected := unexpectedColumnsOf dfs
    let withCols :=
      { base with
        unexpected_columns := unexpected
        unexpected_columns_added := some unexpected.length }
    if unexpected ≠ [] ∧ force_append = false then
      ({ withCols with skipped := true }, none)
    else
      let appended_df := concatDfs dfs
      ({ withCols with
         total_rows := appended_df.rows.length
         total_columns := appended_df.columns.length }, some appended_df)

/-- Shallow embedding of `append_dataframes_by_folder`
(`config["force_append"]` passed explicitly; dict insertion order is list
order): returns the appended tables and the per-folder summaries. -/
def append_dataframes_by_folder (force_append : Bool)
    (dataframes : List (String × List DataFrame)) :
    List (String × DataFrame) × List (String × FolderSummary) :=
  (dataframes.filterMap
     (fun p => (processFolder force_append p.1 p.2).2.map (fun d => (p.1, d))),
   dataframes.map (fun p => (p.1, (processFolder force_append p.1 p.2).1)))

/- ===================================================================
   Shallow embedding of `src/enrichment.py`.
   =================================================================== -/

structure EnrichConfig : Type where
  text_columns : List String
  workers : Nat
  deriving DecidableEq, Repr

/-- The summary of `enrich_with_keyword_metrics`; the floating-point mean
and percentage fields and the Counter top-10 are outside the shallow
embedding and omitted (no claim inspects them). -/
structure EnrichmentSummary : Type where
  total_rows_processed : Nat
  text_columns_used : List String
  max_workers : Nat
  chunk_size : Nat
  keyword_pool_size : Nat
  treatment_pool_size : Nat
  disease_pool_size : Nat
  total_keyword_hits : Nat
  rows_with_hits : Nat
  rows_without_hits : Nat
  rows_flagged : Nat
  deriving DecidableEq, Repr

/-- The two return shapes of the source function: the early-return path
returns the bare table, the main path returns a (table, summary) pair. -/
inductive EnrichResult : Type
  | bare (df : DataFrame)
  | pair (df : DataFrame) (s : EnrichmentSummary)
  deriving DecidableEq, Repr

/-- `" | ".join(str(x).lower() for x in row if pd.notnull(x))` over the
available text columns. -/
def combinedText (df : DataFrame) (availableCols : List String) (r : List Value) : String :=
  String.intercalate " | "
    ((availableCols.map (getCell df r)).filterMap (fun v =>
      match v with
      | Value.null => none
      | v => some (pyLowerStr (pyStr v))))

/-- `chunk_series`: contiguous slices of the given size (the call site's
size is always at least 1 because of `max(1, ...)`). -/
def chunkList {β : Type} (sz : Nat) (l : List β) : List (List β) :=
  match l with
  | [] => []
  | x :: t => ((x :: t).take (max 1 sz)) :: chunkList sz ((x :: t).drop (max 1 sz))
termination_by l.length
decreasing_by
  have h1 : 1 ≤ max 1 sz := le_max_left 1 sz
  simp only [List.length_drop, List.length_cons]
  omega

/-- `process_batch`: per row, all extracted keyword occurrences with repeats
(`total`), the distinct count (`unique`), and the distinct matches in
first-seen order (`flagged`, `list(dict.fromkeys(...))`). -/
def processBatch (extract : String → List String) (batch : List String) :
    List Nat × List Nat × List (List String) :=
  (batch.map (fun text => (extract text).length),
   batch.map (fun text => (dropDups (extract text)).length),
   batch.map (fun text => dropDups (extract text)))

/-- Shallow embedding of `enrichment.enrich_with_keyword_metrics`.  The
flashtext matcher (external library) is abstracted as `extract`; the
thread-pool `executor.map` over chunks preserves submission order, modeled
by mapping over the chunks in order and flattening.  The scratch
`combined_text` column is added and dropped by the source, a net no-op not
materialized here.  When none of the configured text columns is present the
source returns the bare DataFrame — not a (table, summary) pair. -/
def enrich_with_keyword_metrics (extract : String → List String) (df : DataFrame)
    (config : EnrichConfig) (treatments diseases : List String) : EnrichResult :=
  let available_cols := config.text_columns.filter (fun c => c ∈ df.columns)
  if available_cols.isEmpty then .bare df
  else
    let texts := df.rows.map (combinedText df available_cols)
    let chunk_size := max 1 (df.rows.length / config.workers)
    let chunks := chunkList chunk_size texts
    let results := chunks.map (processBatch extract)
    let total_flat := (results.map (fun r => r.1)).flatten
    let unique_flat := (results.map (fun r => r.2.1)).flatten
    let flagged_flat := (results.map (fun r => r.2.2)).flatten
    let summary : EnrichmentSummary := {
      total_rows_processed := df.rows.length
      text_columns_used := available_cols
      max_workers := config.workers
      chunk_size := chunk_size
      keyword_pool_size := (dropDups (treatments ++ diseases)).length
      treatment_pool_size := (dropDups treatments).length
      disease_pool_size := (dropDups diseases).length
      total_keyword_hits := total_flat.sum
      rows_with_hits := total_flat.countP (fun c => 0 < c)
      rows_without_hits := total_flat.countP (fun c => c = 0)
      rows_flagged := flagged_flat.countP (fun l => !l.isEmpty) }
    let withCols : DataFrame := {
      columns := df.columns ++ ["total count", "total unique count", "flagged"]
      rows := (df.rows.zip ((total_flat.zip unique_flat).zip flagged_flat)).map
        (fun p => p.1 ++ [Value.int (Int.ofNat p.2.1.1), Value.int (Int.ofNat p.2.1.2),
                          Value.list p.2.2]) }
    .pair withCols summary

/- ===================================================================
   Shallow embedding of `src/finalize/finalize_transform.filter_df`.
   =================================================================== -/

structure FinalizeConfig : Type where
  ml_columns : List String
  cutoff_value : Int
  deriving DecidableEq, Repr

/-- Summary of `filter_df`; the floating-point percentage fields and the
pandas index ranges are outside the shallow embedding and omitted (no claim
inspects them). -/
structure FinalizeSummary : Type where
  ml_columns_used : List String
  cutoff_value : Int
  total_input_rows : Nat
  total_retained_rows : Nat
  total_dropped_rows : Nat
  deriving DecidableEq, Repr

def isIntCell : Value → Bool
  | .int _ => true
  | _ => false

def cellInt : Value → Int
  | .int n => n
  | _ => 0

def projectRow (df : DataFrame) (cols : List String) (r : List Value) : List Value :=
  cols.map (getCell df r)

def emptyDf : DataFrame := { columns := [], rows := [] }

/-- Shallow embedding of `finalize_transform.filter_df`.  The four
soft-failure guards return empty frames with the empty summary (`none`);
comparing a non-numeric `"total unique count"` cell against the integer
cutoff raises TypeError inside the `try`, which the function's `except`
re-raises (modeled as `.error`). -/
def filter_df (df : DataFrame) (config : FinalizeConfig) (cutoff_value? : Option Int) :
    Except String (DataFrame × DataFrame × Option FinalizeSummary) :=
  let required_col := "total unique count"
  if df.rows.isEmpty || df.columns.isEmpty then .ok (emptyDf, emptyDf, none)
  else if required_col ∉ df.columns then .ok (emptyDf, emptyDf, none)
  else if config.ml_columns.isEmpty then .ok (emptyDf, emptyDf, none)
  else if !((config.ml_columns.filter (fun c => c ∉ df.columns)).isEmpty) then
    .ok (emptyDf, emptyDf, none)
  else
    let cutoff := cutoff_value?.getD config.cutoff_value
    if df.rows.all (fun r => isIntCell (getCell df r required_col)) then
      let retained := df.rows.filter (fun r => cutoff ≤ cellInt (getCell df r required_col))
      let dropped := df.rows.filter (fun r => cellInt (getCell df r required_col) < cutoff)
      let MLdf : DataFrame :=
        { columns := config.ml_columns
          rows := retained.map (projectRow df config.ml_columns) }
      let MLdf_dropped : DataFrame :=
        { columns := config.ml_columns
          rows := dropped.map (projectRow df config.ml_columns) }
      .ok (MLdf, MLdf_dropped, some {
        ml_columns_used := config.ml_columns
        cutoff_value := cutoff
        total_input_rows := df.rows.length
        total_retained_rows := retained.length
        total_dropped_rows := dropped.length })
    else .error "TypeError: '>=' not supported between these instances"

/- ===================================================================
   Order facts for the code-point string order (Python `sorted`), and
   generic lemmas about the association-list shapes of the per-folder
   outputs.
   =================================================================== -/

theorem charListLeB_total (a b : List Char) :
    charListLeB a b = true ∨ charListLeB b a = true := by
  induction a generalizing b with
  | nil => exact Or.inl rfl
  | cons x xs ih =>
    cases b with
    | nil => exact Or.inr rfl
    | cons y ys =>
      by_cases hxy : x.toNat < y.toNat
      · exact Or.inl (by simp [charListLeB, hxy])
      · by_cases hyx : y.toNat < x.toNat
        · exact Or.inr (by simp [charListLeB, hyx])
        · rcases ih ys with h | h
          · exact Or.inl (by simp [charListLeB, hxy, hyx, h])
          · exact Or.inr (by simp [charListLeB, hxy, hyx, h])

theorem charListLeB_trans (a b c : List Char)
    (hab : charListLeB a b = true) (hbc : charListLeB b c = true) :
    charListLeB a c = true := by
  induction a generalizing b c with
  | nil => rfl
  | cons x xs ih =>
    cases b with
    | nil => simp [charListLeB] at hab
    | cons y ys =>
      cases c with
      | nil => simp [charListLeB] at hbc
      | cons z zs =>
        simp only [charListLeB] at hab hbc ⊢
        by_cases hxy : x.toNat < y.toNat
        · by_cases hyz : y.toNat < z.toNat
          · simp [show x.toNat < z.toNat by omega]
          · by_cases hzy : z.toNat < y.toNat
            · simp [hyz, hzy] at hbc
            · simp [show x.toNat < z.toNat by omega]
        · by_cases hyx : y.toNat < x.toNat
          · simp [hxy, hyx] at hab
          · by_cases hyz : y.toNat < z.toNat
            · simp [show x.toNat < z.toNat by omega]
            · by_cases hzy : z.toNat < y.toNat
              · simp [hyz, hzy] at hbc
              · have hxz : ¬ x.toNat < z.toNat := by omega
                have hzx : ¬ z.toNat < x.toNat := by omega
                rw [if_neg hxy, if_neg hyx] at hab
                rw [if_neg hyz, if_neg hzy] at hbc
                rw [if_neg hxz, if_neg hzx]
                exact ih ys zs hab hbc

instance : IsTotal String (fun a b => strLeB a b = true) :=
  ⟨fun a b => charListLeB_total a.data b.data⟩

instance : IsTrans String (fun a b => strLeB a b = true) :=
  ⟨fun a b c => charListLeB_trans a.data b.data c.data⟩

theorem mem_dropDupsAux_iff {seen t} {x : α} :
    x ∈ dropDupsAux seen t ↔ x ∈ t ∧ x ∉ seen := by
  induction t generalizing seen with
  | nil => simp [dropDupsAux]
  | cons k t ih =>
    by_cases hk : k ∈ seen
    · rw [dropDupsAux, if_pos hk, ih]
      constructor
      · rintro ⟨hxt, hxs⟩
        refine ⟨List.mem_cons_of_mem _ hxt, ?_⟩
        intro hc
        exact hxs (List.mem_cons_of_mem _ hc)
      · rintro ⟨hx, hxs⟩
        rcases List.mem_cons.mp hx with rfl | hxt
        · exact absurd hk hxs
        · refine ⟨hxt, ?_⟩
          intro hc
          rcases List.mem_cons.mp hc with rfl | hc2
          · exact hxs hk
          · exact hxs hc2
    · rw [dropDupsAux, if_neg hk]
      constructor
      · intro hx
        rcases List.mem_cons.mp hx with rfl | hx2
        · exact ⟨List.mem_cons_self _ _, hk⟩
        · rcases ih.mp hx2 with ⟨hxt, hxs⟩
          refine ⟨List.mem_cons_of_mem _ hxt, ?_⟩
          intro hc
          exact hxs (List.mem_cons_of_mem _ hc)
      · rintro ⟨hx, hxs⟩
        rcases List.mem_cons.mp hx with rfl | hxt
        · exact List.mem_cons_self _ _
        · by_cases hxk : x = k
          · subst hxk
            exact List.mem_cons_self _ _
          · refine List.mem_cons_of_mem _ (ih.mpr ⟨hxt, ?_⟩)
            intro hc
            rcases List.mem_cons.mp hc with rfl | hc2
            · exact hxk rfl
            · exact hxs hc2

theorem mem_dropDups_iff {t : List α} {x : α} : x ∈ dropDups t ↔ x ∈ t := by
  unfold dropDups
  rw [mem_dropDupsAux_iff]
  simp

theorem nodup_dropDupsAux (seen t) : (dropDupsAux (α := α) seen t).Nodup := by
  induction t generalizing seen with
  | nil => exact List.nodup_nil
  | cons k t ih =>
    by_cases hk : k ∈ seen
    · simpa only [dropDupsAux, if_pos hk] using ih (k :: seen)
    · simp only [dropDupsAux, if_neg hk, List.nodup_cons]
      constructor
      · intro hc
        exact ((mem_dropDupsAux_iff.mp hc).2) (List.mem_cons_self k seen)
      · exact ih (k :: seen)

theorem nodup_dropDups (t : List α) : (dropDups t).Nodup := nodup_dropDupsAux [] t

theorem lookup_cons_ne {γ : Type} (p : String × γ) (es : List (String × γ)) {f : String}
    (h : f ≠ p.1) : (p :: es).lookup f = es.lookup f := by
  obtain ⟨k, v⟩ := p
  rw [List.lookup_cons]
  have hb : (f == k) = false := beq_eq_false_iff_ne.mpr h
  rw [hb]

theorem lookup_cons_eq {γ : Type} (k : String) (v : γ) (es : List (String × γ)) :
    ((k, v) :: es).lookup k = some v := List.lookup_cons_self

theorem nodup_fst_cons {γ : Type} {p : String × γ} {t : List (String × γ)}
    (hnd : ((p :: t).map Prod.fst).Nodup) :
    p.1 ∉ t.map Prod.fst ∧ (t.map Prod.fst).Nodup := by
  rw [List.map_cons] at hnd
  exact List.nodup_cons.mp hnd

theorem lookup_map_pair {γ δ : Type} (input : List (String × γ)) (g : String → γ → δ)
    (f : String) (x : γ)
    (hnd : (input.map Prod.fst).Nodup) (hmem : (f, x) ∈ input) :
    (input.map (fun p => (p.1, g p.1 p.2))).lookup f = some (g f x) := by
  induction input with
  | nil => cases hmem
  | cons p t ih =>
    have hnd2 := nodup_fst_cons hnd
    rcases List.mem_cons.mp hmem with heq | hmem2
    · rw [← heq, List.map_cons]
      exact lookup_cons_eq f (g f x) _
    · have hfp : f ≠ p.1 := by
        intro hc
        exact hnd2.1 (hc ▸ List.mem_map_of_mem Prod.fst hmem2)
      rw [List.map_cons, lookup_cons_ne (p.1, g p.1 p.2) _ hfp]
      exact ih hnd2.2 hmem2

theorem lookup_filterMap_none {γ δ : Type} (t : List (String × γ))
    (g : String → γ → Option δ) (f : String) (hf : f ∉ t.map Prod.fst) :
    (t.filterMap (fun p => (g p.1 p.2).map (fun d => (p.1, d)))).lookup f = none := by
  induction t with
  | nil => rfl
  | cons p t ih =>
    have hfp : f ≠ p.1 := fun hc => hf (by simp [hc])
    have hf2 : f ∉ t.map Prod.fst := fun hc => hf (by simp [hc])
    cases hg : g p.1 p.2 with
    | none =>
      rw [List.filterMap_cons_none (by rw [hg]; rfl)]
      exact ih hf2
    | some d =>
      rw [List.filterMap_cons_some (b := (p.1, d)) (by rw [hg]; rfl)]
      rw [lookup_cons_ne (p.1, d) _ hfp]
      exact ih hf2

theorem lookup_filterMap_pair {γ δ : Type} (input : List (String × γ))
    (g : String → γ → Option δ) (f : String) (x : γ)
    (hnd : (input.map Prod.fst).Nodup) (hmem : (f, x) ∈ input) :
    (input.filterMap (fun p => (g p.1 p.2).map (fun d => (p.1, d)))).lookup f = g f x := by
  induction input with
  | nil => cases hmem
  | cons p t ih =>
    have hnd2 := nodup_fst_cons hnd
    rcases List.mem_cons.mp hmem with heq | hmem2
    · have hp1 : p.1 = f := by rw [← heq]
      have hp2 : p.2 = x := by rw [← heq]
      cases hg : g p.1 p.2 with
      | none =>
        rw [List.filterMap_cons_none (by rw [hg]; rfl)]
        rw [lookup_filterMap_none t g f (hp1 ▸ hnd2.1), ← hp1, ← hp2, hg]
      | some d =>
        rw [List.filterMap_cons_some (b := (p.1, d)) (by rw [hg]; rfl)]
        rw [← hp1, ← hp2, hg]
        exact lookup_cons_eq p.1 d _
    · have hfp : f ≠ p.1 := by
        intro hc
        exact hnd2.1 (hc ▸ List.mem_map_of_mem Prod.fst hmem2)
      cases hg : g p.1 p.2 with
      | none =>
        rw [List.filterMap_cons_none (by rw [hg]; rfl)]
        exact ih hnd2.2 hmem2
      | some d =>
        rw [List.filterMap_cons_some (b := (p.1, d)) (by rw [hg]; rfl)]
        rw [lookup_cons_ne (p.1, d) _ hfp]
        exact ih hnd2.2 hmem2

theorem fst_filterMap_sublist {γ δ : Type} (input : List (String × γ))
    (g : String → γ → Option δ) :
    ((input.filterMap (fun p => (g p.1 p.2).map (fun d => (p.1, d)))).map Prod.fst).Sublist
      (input.map Prod.fst) := by
  induction input with
  | nil => exact List.Sublist.refl _
  | cons p t ih =>
    rw [List.map_cons]
    cases hg : g p.1 p.2 with
    | none =>
      rw [List.filterMap_cons_none (by rw [hg]; rfl)]
      exact ih.cons p.1
    | some d =>
      rw [List.filterMap_cons_some (b := (p.1, d)) (by rw [hg]; rfl), List.map_cons]
      exact ih.cons₂ p.1

theorem nodup_fst_filterMap {γ δ : Type} (input : List (String × γ))
    (g : String → γ → Option δ) (hnd : (input.map Prod.fst).Nodup) :
    ((input.filterMap (fun p => (g p.1 p.2).map (fun d => (p.1, d)))).map Prod.fst).Nodup :=
  hnd.sublist (fst_filterMap_sublist input g)

theorem not_mem_fst_filterMap {γ δ : Type} (input : List (String × γ))
    (g : String → γ → Option δ) (f : String) (x : γ)
    (hnd : (input.map Prod.fst).Nodup) (hmem : (f, x) ∈ input) (hg : g f x = none) :
    f ∉ (input.filterMap (fun p => (g p.1 p.2).map (fun d => (p.1, d)))).map Prod.fst := by
  induction input with
  | nil => cases hmem
  | cons p t ih =>
    have hnd2 := nodup_fst_cons hnd
    rcases List.mem_cons.mp hmem with heq | hmem2
    · have hp1 : p.1 = f := by rw [← heq]
      have hp2 : p.2 = x := by rw [← heq]
      rw [List.filterMap_cons_none (by rw [hp1, hp2, hg]; rfl)]
      intro hc
      have hsub := fst_filterMap_sublist t g
      exact (hp1 ▸ hnd2.1) (hsub.mem hc)
    · have hfp : f ≠ p.1 := by
        intro hc
        exact hnd2.1 (hc ▸ List.mem_map_of_mem Prod.fst hmem2)
      cases hg2 : g p.1 p.2 with
      | none =>
        rw [List.filterMap_cons_none (by rw [hg2]; rfl)]
        exact ih hnd2.2 hmem2
      | some d =>
        rw [List.filterMap_cons_some (b := (p.1, d)) (by rw [hg2]; rfl), List.map_cons]
        intro hc
        rcases List.mem_cons.mp hc with hc1 | hc2
        · exact hfp hc1
        · exact ih hnd2.2 hmem2 hc2

theorem mem_addCols (cols : List String) :
    ∀ acc x, (x ∈ addCols acc cols ↔ x ∈ acc ∨ x ∈ cols) := by
  induction cols with
  | nil =>
    intro acc x
    simp [addCols]
  | cons c cs ih =>
    intro acc x
    have h1 : addCols acc (c :: cs) = addCols (if c ∈ acc then acc else acc ++ [c]) cs := rfl
    rw [h1, ih]
    by_cases hc : c ∈ acc
    · rw [if_pos hc]
      simp only [List.mem_cons]
      constructor
      · rintro (h | h)
        · exact Or.inl h
        · exact Or.inr (Or.inr h)
      · rintro (h | rfl | h)
        · exact Or.inl h
        · exact Or.inl hc
        · exact Or.inr h
    · rw [if_neg hc]
      simp only [List.mem_append, List.mem_singleton, List.mem_cons]
      tauto

theorem nodup_addCols (cols : List String) :
    ∀ acc, acc.Nodup → (addCols acc cols).Nodup := by
  induction cols with
  | nil =>
    intro acc h
    exact h
  | cons c cs ih =>
    intro acc h
    have h1 : addCols acc (c :: cs) = addCols (if c ∈ acc then acc else acc ++ [c]) cs := rfl
    rw [h1]
    by_cases hc : c ∈ acc
    · rw [if_pos hc]
      exact ih acc h
    · rw [if_neg hc]
      refine ih _ ?_
      simp [List.nodup_append, h, hc]

theorem concatColumns_spec (dfs : List DataFrame) :
    (concatColumns dfs).Nodup
    ∧ (∀ c, c ∈ concatColumns dfs ↔ ∃ d ∈ dfs, c ∈ d.columns) := by
  suffices h : ∀ acc : List String, acc.Nodup →
      ((dfs.foldl (fun a d => addCols a d.columns) acc).Nodup
      ∧ (∀ c, c ∈ dfs.foldl (fun a d => addCols a d.columns) acc
            ↔ c ∈ acc ∨ ∃ d ∈ dfs, c ∈ d.columns)) by
    have h2 := h [] List.nodup_nil
    refine ⟨h2.1, fun c => ?_⟩
    unfold concatColumns
    rw [h2.2 c]
    simp
  induction dfs with
  | nil =>
    intro acc ha
    refine ⟨ha, fun c => ?_⟩
    simp
  | cons d ds ih =>
    intro acc ha
    simp only [List.foldl_cons]
    have h3 := ih (addCols acc d.columns) (nodup_addCols _ _ ha)
    refine ⟨h3.1, fun c => ?_⟩
    rw [h3.2 c, mem_addCols]
    constructor
    · rintro ((h | h) | ⟨x, hx, hcx⟩)
      · exact Or.inl h
      · exact Or.inr ⟨d, List.mem_cons_self d ds, h⟩
      · exact Or.inr ⟨x, List.mem_cons_of_mem d hx, hcx⟩
    · rintro (h | ⟨x, hx, hcx⟩)
      · exact Or.inl (Or.inl h)
      · rcases List.mem_cons.mp hx with rfl | hx2
        · exact Or.inl (Or.inr hcx)
        · exact Or.inr ⟨x, hx2, hcx⟩

theorem concatDfs_row_count (dfs : List DataFrame) :
    (concatDfs dfs).rows.length = (dfs.map (fun d => d.rows.length)).sum := by
  show ((dfs.map (fun d => d.rows.map
      (fun r => (concatColumns dfs).map (getCell d r)))).flatten).length = _
  rw [List.length_flatten, List.map_map]
  congr 1
  apply List.map_congr_left
  intro d _
  simp

theorem unexpectedColumnsOf_eq_nil (dfs : List DataFrame)
    (hsame : ∀ d₁ ∈ dfs, ∀ d₂ ∈ dfs, ∀ c, c ∈ d₁.columns → c ∈ d₂.columns) :
    unexpectedColumnsOf dfs = [] := by
  unfold unexpectedColumnsOf
  have hfil : ((allColumnsOf dfs).filter
      (fun c => !(dfs.all (fun d => decide (c ∈ d.columns))))) = [] := by
    rw [List.filter_eq_nil_iff]
    intro c hc
    have hex : ∃ d₀ ∈ dfs, c ∈ d₀.columns := by
      have hc2 := mem_dropDups_iff.mp hc
      rcases List.mem_flatten.mp hc2 with ⟨l, hl, hcl⟩
      rcases List.mem_map.mp hl with ⟨d₀, hd₀, rfl⟩
      exact ⟨d₀, hd₀, hcl⟩
    rcases hex with ⟨d₀, hd₀, hcd₀⟩
    have hall : dfs.all (fun d => decide (c ∈ d.columns)) = true := by
      rw [List.all_eq_true]
      intro d hd
      exact decide_eq_true (hsame d₀ hd₀ d hd c hcd₀)
    simp [hall]
  rw [hfil]
  rfl

theorem mem_unexpectedColumnsOf (dfs : List DataFrame) (c : String) :
    c ∈ unexpectedColumnsOf dfs
      ↔ ((∃ d ∈ dfs, c ∈ d.columns) ∧ ¬ (∀ d ∈ dfs, c ∈ d.columns)) := by
  unfold unexpectedColumnsOf
  rw [List.mem_insertionSort, List.mem_filter]
  constructor
  · rintro ⟨hmem, hpred⟩
    have hex : ∃ d₀ ∈ dfs, c ∈ d₀.columns := by
      have hc2 := mem_dropDups_iff.mp hmem
      rcases List.mem_flatten.mp hc2 with ⟨l, hl, hcl⟩
      rcases List.mem_map.mp hl with ⟨d₀, hd₀, rfl⟩
      exact ⟨d₀, hd₀, hcl⟩
    refine ⟨hex, fun hall => ?_⟩
    have : dfs.all (fun d => decide (c ∈ d.columns)) = true := by
      rw [List.all_eq_true]
      intro d hd
      exact decide_eq_true (hall d hd)
    rw [this] at hpred
    cases hpred
  · rintro ⟨⟨d₀, hd₀, hcd₀⟩, hnall⟩
    constructor
    · unfold allColumnsOf
      rw [mem_dropDups_iff]
      exact List.mem_flatten.mpr ⟨d₀.columns, List.mem_map_of_mem _ hd₀, hcd₀⟩
    · cases hall : dfs.all (fun d => decide (c ∈ d.columns)) with
      | false => rfl
      | true =>
        exfalso
        rw [List.all_eq_true] at hall
        exact hnall (fun d hd => of_decide_eq_true (hall d hd))

theorem nodup_unexpectedColumnsOf (dfs : List DataFrame) :
    (unexpectedColumnsOf dfs).Nodup := by
  unfold unexpectedColumnsOf
  refine ((List.perm_insertionSort _ _).nodup_iff).mpr ?_
  exact (nodup_dropDups _).filter _

theorem sorted_unexpectedColumnsOf (dfs : List DataFrame) :
    (unexpectedColumnsOf dfs).Sorted (fun a b => strLeB a b = true) :=
  List.sorted_insertionSort _ _

theorem processFolder_ok (force : Bool) (folder : String) (dfs : List DataFrame)
    (hne : dfs ≠ []) (hok : unexpectedColumnsOf dfs = [] ∨ force = true) :
    (processFolder force folder dfs).2 = some (concatDfs dfs) := by
  cases dfs with
  | nil => exact absurd rfl hne
  | cons d ds =>
    have hcond : ¬ (unexpectedColumnsOf (d :: ds) ≠ [] ∧ force = false) := by
      rcases hok with h | h
      · intro hc
        exact hc.1 h
      · intro hc
        rw [h] at hc
        exact absurd hc.2 (by decide)
    simp only [processFolder, if_neg hcond]

theorem processFolder_skip (folder : String) (dfs : List DataFrame)
    (hne : dfs ≠ []) (hbad : unexpectedColumnsOf dfs ≠ []) :
    (processFolder false folder dfs).2 = none
    ∧ (processFolder false folder dfs).1.skipped = true
    ∧ (processFolder false folder dfs).1.unexpected_columns = unexpectedColumnsOf dfs := by
  cases dfs with
  | nil => exact absurd rfl hne
  | cons d ds =>
    have hcond : unexpectedColumnsOf (d :: ds) ≠ [] ∧ True := ⟨hbad, trivial⟩
    refine ⟨?_, ?_, ?_⟩ <;> simp only [processFolder, if_pos hcond]

/- ===================================================================
   Concrete tables used by witnesses and scenario claims.
   =================================================================== -/

def dfC5A : DataFrame :=
  { columns := ["A", "B", "C"], rows := [[Value.int 1, Value.int 2, Value.int 3]] }

def dfC5B : DataFrame :=
  { columns := ["A", "B", "D"], rows := [[Value.int 4, Value.int 5, Value.int 6]] }

def inputC5 : List (String × List DataFrame) := [("cat1", [dfC5A, dfC5B])]

def inputC4 : List (String × List DataFrame) := [("ok", [dfC5A, dfC5A])]

def inputC10 : List (String × List DataFrame) := [("empty", []), ("ok", [dfC5A])]

/-- C10: for every category whose file mapping contains zero source tables,
`append_dataframes_by_folder` does not raise to its caller: the internal
common-column computation fails for that category, the failure is captured
as a non-null `error` field in that category's summary (with `skipped`
remaining false), the category is absent from the appended output mapping,
and all remaining categories are still processed (every input category gets
its own per-folder summary). -/
theorem C10_empty_category_isolated (force : Bool)
    (input : List (String × List DataFrame)) (folder : String)
    (hnd : (input.map Prod.fst).Nodup) (hmem : (folder, ([] : List DataFrame)) ∈ input) :
    ((append_dataframes_by_folder force input).2.lookup folder
        = some (processFolder force folder []).1)
    ∧ ((processFolder force folder []).1.error.isSome = true)
    ∧ ((processFolder force folder []).1.skipped = false)
    ∧ folder ∉ ((append_dataframes_by_folder force input).1.map Prod.fst)
    ∧ (∀ g dfs, (g, dfs) ∈ input →
        (append_dataframes_by_folder force input).2.lookup g
          = some (processFolder force g dfs).1) := by
  refine ⟨?_, rfl, rfl, ?_, ?_⟩
  · exact lookup_map_pair input (fun f dfs => (processFolder force f dfs).1) folder [] hnd hmem
  · exact not_mem_fst_filterMap input (fun f dfs => (processFolder force f dfs).2)
      folder [] hnd hmem rfl
  · intro g dfs hg
    exact lookup_map_pair input (fun f dfs => (processFolder force f dfs).1) g dfs hnd hg

/-- Witness for C10 at a concrete input: an empty category next to a normal
one. -/
theorem C10_witness :
    (("empty", ([] : List DataFrame)) ∈ inputC10)
    ∧ ((append_dataframes_by_folder false inputC10).2.lookup "empty"
        = some (processFolder false "empty" []).1)
    ∧ ((processFolder false "empty" []).1.error.isSome = true)
    ∧ ((processFolder false "empty" []).1.skipped = false)
    ∧ "empty" ∉ ((append_dataframes_by_folder false inputC10).1.map Prod.fst) := by
  have h := C10_empty_category_isolated false inputC10 "empty" (by decide) (by decide)
  exact ⟨by decide, h.1, h.2.1, h.2.2.1, h.2.2.2.1⟩

/-- C4: for every category whose source tables all share one column set, or
whenever `force_append` is set, `append_dataframes_by_folder` produces
exactly one concatenated table for that category (the appended mapping has
no duplicate keys and maps the category to `concatDfs dfs`), whose rows are
the input tables' rows in input order (null-aligned on the column union),
whose row count is the sum of the input row counts, and whose column list
is duplicate-free and holds exactly the union of the input columns. -/
theorem C4_append_row_and_column_invariant (force_append : Bool)
    (input : List (String × List DataFrame)) (folder : String) (dfs : List DataFrame)
    (hnd : (input.map Prod.fst).Nodup) (hmem : (folder, dfs) ∈ input) (hne : dfs ≠ [])
    (hcols : (∀ d₁ ∈ dfs, ∀ d₂ ∈ dfs, ∀ c, c ∈ d₁.columns → c ∈ d₂.columns)
             ∨ force_append = true) :
    ((append_dataframes_by_folder force_append input).1.lookup folder
        = some (concatDfs dfs))
    ∧ (((append_dataframes_by_folder force_append input).1.map Prod.fst).Nodup)
    ∧ ((concatDfs dfs).rows
        = (dfs.map (fun d => d.rows.map
            (fun r => (concatDfs dfs).columns.map (getCell d r)))).flatten)
    ∧ ((concatDfs dfs).rows.length = (dfs.map (fun d => d.rows.length)).sum)
    ∧ ((concatDfs dfs).columns.Nodup)
    ∧ (∀ c, c ∈ (concatDfs dfs).columns ↔ ∃ d ∈ dfs, c ∈ d.columns) := by
  have hok : unexpectedColumnsOf dfs = [] ∨ force_append = true := by
    rcases hcols with h | h
    · exact Or.inl (unexpectedColumnsOf_eq_nil dfs h)
    · exact Or.inr h
  refine ⟨?_, ?_, rfl, concatDfs_row_count dfs, (concatColumns_spec dfs).1,
    (concatColumns_spec dfs).2⟩
  · exact (lookup_filterMap_pair input (fun f dfs => (processFolder force_append f dfs).2)
      folder dfs hnd hmem).trans (processFolder_ok force_append folder dfs hne hok)
  · exact nodup_fst_filterMap input (fun f dfs => (processFolder force_append f dfs).2) hnd

/-- Witness for C4 at a concrete input: two identical-schema tables. -/
theorem C4_witness :
    (("ok", [dfC5A, dfC5A]) ∈ inputC4)
    ∧ ((append_dataframes_by_folder false inputC4).1.lookup "ok"
        = some (concatDfs [dfC5A, dfC5A]))
    ∧ ((concatDfs [dfC5A, dfC5A]).rows.length
        = ([dfC5A, dfC5A].map (fun d => d.rows.length)).sum) := by
  have h := C4_append_row_and_column_invariant false inputC4 "ok" [dfC5A, dfC5A]
    (by decide) (by decide) (by decide) (Or.inl (by decide))
  exact ⟨by decide, h.1, h.2.2.2.1⟩

/-- C5: for every category whose source tables disagree on columns while
`force_append` is false, the category is absent from the appended output
mapping, its summary records `skipped = true`, and `unexpected_columns` is
the duplicate-free, code-point-sorted list of exactly those columns in the
union but not in the intersection. -/
theorem C5_skip_on_mismatch (input : List (String × List DataFrame))
    (folder : String) (dfs : List DataFrame)
    (hnd : (input.map Prod.fst).Nodup) (hmem : (folder, dfs) ∈ input) (hne : dfs ≠ [])
    (hmis : ∃ c, (∃ d ∈ dfs, c ∈ d.columns) ∧ ¬ (∀ d ∈ dfs, c ∈ d.columns)) :
    folder ∉ ((append_dataframes_by_folder false input).1.map Prod.fst)
    ∧ ((append_dataframes_by_folder false input).2.lookup folder
        = some (processFolder false folder dfs).1)
    ∧ (processFolder false folder dfs).1.skipped = true
    ∧ (processFolder false folder dfs).1.unexpected_columns = unexpectedColumnsOf dfs
    ∧ (∀ c, c ∈ unexpectedColumnsOf dfs
        ↔ ((∃ d ∈ dfs, c ∈ d.columns) ∧ ¬ (∀ d ∈ dfs, c ∈ d.columns)))
    ∧ (unexpectedColumnsOf dfs).Nodup
    ∧ (unexpectedColumnsOf dfs).Sorted (fun a b => strLeB a b = true) := by
  have hbad : unexpectedColumnsOf dfs ≠ [] := by
    rcases hmis with ⟨c, hc⟩
    intro hnil
    have hmemc := (mem_unexpectedColumnsOf dfs c).mpr hc
    rw [hnil] at hmemc
    cases hmemc
  have hskip := processFolder_skip folder dfs hne hbad
  refine ⟨?_, ?_, hskip.2.1, hskip.2.2, fun c => mem_unexpectedColumnsOf dfs c,
    nodup_unexpectedColumnsOf dfs, sorted_unexpectedColumnsOf dfs⟩
  · exact not_mem_fst_filterMap input (fun f dfs => (processFolder false f dfs).2)
      folder dfs hnd hmem hskip.1
  · exact lookup_map_pair input (fun f dfs => (processFolder false f dfs).1) folder dfs hnd hmem

/-- Witness for C5 at the spec's scenario: columns {A,B,C} next to {A,B,D}
give `unexpected_columns = ["C", "D"]` and the category is skipped. -/
theorem C5_witness :
    (("cat1", [dfC5A, dfC5B]) ∈ inputC5)
    ∧ "cat1" ∉ ((append_dataframes_by_folder false inputC5).1.map Prod.fst)
    ∧ (processFolder false "cat1" [dfC5A, dfC5B]).1.skipped = true
    ∧ unexpectedColumnsOf [dfC5A, dfC5B] = ["C", "D"] := by
  have h := C5_skip_on_mismatch inputC5 "cat1" [dfC5A, dfC5B] (by decide) (by decide)
    (by decide) ⟨"C", by decide, by decide⟩
  exact ⟨by decide, h.1, h.2.2.1, by decide⟩

/- ===================================================================
   Claims C1-C3: aggregation and duplicate accounting.
   =================================================================== -/

/-- C2: duplicate accounting for both eliminators.  Every statistics record
either function publishes satisfies
`total_duplicates = extra_duplicates + number_of_duplicate_groups` and
`unique_duplicate_rows = number_of_duplicate_groups`, where a duplicate
group is a maximal set of at least two rows equal under the relevant
equality: full converted-row equality in `remove_true_duplicates_from_df`,
composite-key equality over the given key columns in `count_unique_pairs`
(whose summary exists exactly when the key columns and `PROJECT_NUMBER`
are present — otherwise the pandas KeyError path returns the empty
summary). -/
theorem C2_duplicate_accounting :
    (∀ (df : DataFrame) (label : String) (s : DedupStats),
        (label, s) ∈ (remove_true_duplicates_from_df df).2 →
        s.total_duplicates = s.extra_duplicates
            + numDuplicateGroups (df.rows.map (fun r => r.map convertListCell))
          ∧ s.unique_duplicate_rows
            = numDuplicateGroups (df.rows.map (fun r => r.map convertListCell)))
    ∧ (∀ (df : DataFrame) (combo_cols : List String) (count_name label : String)
          (s : DedupStats),
        (label, s) ∈ (count_unique_pairs df combo_cols count_name).2 →
        s.total_duplicates = s.extra_duplicates
            + numDuplicateGroups (df.rows.map (rowKey df combo_cols))
          ∧ s.unique_duplicate_rows
            = numDuplicateGroups (df.rows.map (rowKey df combo_cols))) := by
  constructor
  · intro df label s hmem
    simp only [remove_true_duplicates_from_df, List.mem_singleton, Prod.mk.injEq] at hmem
    rw [hmem.2]
    exact ⟨total_eq_extra_add_groups _, uniqueDuplicateRows_eq_numDuplicateGroups _⟩
  · intro df combo_cols count_name label s hmem
    simp only [count_unique_pairs] at hmem
    split at hmem
    · simp only [List.mem_singleton, Prod.mk.injEq] at hmem
      rw [hmem.2]
      exact ⟨total_eq_extra_add_groups _, uniqueDuplicateRows_eq_numDuplicateGroups _⟩
    · simp at hmem

def dfC2 : DataFrame :=
  { columns := ["K"], rows := [[Value.str "a"], [Value.str "a"], [Value.str "b"]] }

/-- Witness for C2 at a concrete table with one duplicated row. -/
theorem C2_witness :
    (("Aggregate_output",
        ({ unique_duplicate_rows := 1, total_duplicates := 2, extra_duplicates := 1 }
          : DedupStats))
      ∈ (remove_true_duplicates_from_df dfC2).2)
    ∧ ((2 : Nat) = 1 + numDuplicateGroups (dfC2.rows.map (fun r => r.map convertListCell))
       ∧ (1 : Nat) = numDuplicateGroups (dfC2.rows.map (fun r => r.map convertListCell))) := by
  refine ⟨by decide, ?_⟩
  exact C2_duplicate_accounting.1 dfC2 "Aggregate_output"
    { unique_duplicate_rows := 1, total_duplicates := 2, extra_duplicates := 1 } (by decide)

def dfPrjC3 : DataFrame :=
  { columns := ["PROJECT_NUMBER_x"], rows := [[Value.str "X1"]] }

def dfPubC3 : DataFrame :=
  { columns := ["PROJECT_NUMBER", "PMID"]
    rows := [[Value.str "X1", Value.str "100"],
             [Value.str "X1", Value.str "100"],
             [Value.str "X1", Value.str "200"]] }

def dfPatC3 : DataFrame :=
  { columns := ["PROJECT_NUMBER", "PATENT_ID"], rows := [] }

def dfCSC3 : DataFrame :=
  { columns := ["PROJECT_NUMBER", "ClinicalTrials.gov ID"], rows := [] }

def linkedC3 : List (String × DataFrame) := [("PRJ_PRJABS", dfPrjC3)]

def appendedC3 : List (String × DataFrame) :=
  [("PUBLINK", dfPubC3), ("Patents", dfPatC3), ("ClinicalStudies", dfCSC3)]

/-- C3: the Publications table with composite-key row (X1, 100) twice and
(X1, 200) once yields publication count 2 (not 3) for X1, with duplicate
statistics total_duplicates = 2, extra_duplicates = 1,
unique_duplicate_rows = 1 for that composite key. -/
theorem C3_publication_count_scenario :
    aggregate_project_outputs linkedC3 appendedC3
      = Except.ok
        ({ columns := ["PROJECT_NUMBER", "publication count", "patent count",
                       "clinical study count"]
           rows := [[Value.str "X1", Value.int 2, Value.int 0, Value.int 0]] },
         [("publication count",
            { unique_duplicate_rows := 1, total_duplicates := 2, extra_duplicates := 1 }),
          ("patent count",
            { unique_duplicate_rows := 0, total_duplicates := 0, extra_duplicates := 0 }),
          ("clinical study count",
            { unique_duplicate_rows := 0, total_duplicates := 0, extra_duplicates := 0 })]) := by
  rfl

/-- C1 (code_bug evidence): `aggregate_project_outputs` raises instead of
degrading gracefully.  With the linked base table `"PRJ_PRJABS"` absent the
subscript on `linked_merged` raises KeyError (the claim and spec say an
empty table should be returned); with the outcome category `"PUBLINK"`
absent the final summary accumulation references the never-bound local
`pub_summary` and raises NameError (the claim and spec say the computation
is skipped and a (table, summary) pair still returned). -/
theorem C1_missing_inputs_raise_instead :
    aggregate_project_outputs [] appendedC3
      = Except.error (PyError.keyError "PRJ_PRJABS")
    ∧ aggregate_project_outputs linkedC3 [("Patents", dfPatC3), ("ClinicalStudies", dfCSC3)]
      = Except.error (PyError.nameError "summary") := by
  exact ⟨rfl, rfl⟩

/- ===================================================================
   Claims C6 and C7: keyword variant generation.
   =================================================================== -/

/-- C6 counterexample: the punctuation-stripped base form itself is never
added by the generator — only its plural — so "clinicaltrial" is not among
the variants of "clinical-trial", contrary to the claim's list. -/
theorem C6_counterexample :
    "clinicaltrial" ∉ generate_keyword_variants "clinical-trial" := by decide

/-- C6 amended: the variants of "clinical-trial" are exactly the seed, its
simple plural, the hyphen-to-space form with its plural, and the plural of
the punctuation-stripped form — without the punctuation-stripped base form
"clinicaltrial" itself. -/
theorem C6_amended_variant_set :
    generate_keyword_variants "clinical-trial"
      = ["clinical-trial", "clinical-trials", "clinical trial", "clinical trials",
         "clinicaltrials"] := by decide

/-- C7 counterexample: variant generation is not idempotent on every member:
"cats" is a variant of "cat", but regenerating from "cats" produces
"catses" (the s-ending pluralization rule fires again), which is not a
variant of "cat". -/
theorem C7_counterexample :
    "cats" ∈ generate_keyword_variants "cat"
    ∧ "catses" ∈ generate_keyword_variants "cats"
    ∧ "catses" ∉ generate_keyword_variants "cat" := by decide

theorem mem_addVar {vs : List (List Char)} {v o : List Char} (h : o ∈ vs) :
    o ∈ addVar vs v := by
  unfold addVar
  split
  · exact h
  · exact List.mem_append_left _ h

theorem self_mem_variantsOfL (o : List Char) : o ∈ variantsOfL o := by
  unfold variantsOfL
  dsimp only
  split_ifs <;> (repeat' apply mem_addVar) <;> exact List.mem_singleton_self o

def asciiL (l : List Char) : Prop := ∀ c ∈ l, c.toNat < 128

theorem unidecChar_ascii {c : Char} (h : c.toNat < 128) : unidecChar c = [c] := by
  unfold unidecChar
  rw [if_pos h]

theorem unidecL_ascii {l : List Char} (h : asciiL l) : unidecL l = l := by
  induction l with
  | nil => rfl
  | cons c t ih =>
    show ((c :: t).map unidecChar).flatten = c :: t
    rw [List.map_cons, List.flatten_cons, unidecChar_ascii (h c (List.mem_cons_self c t))]
    have ih2 : (t.map unidecChar).flatten = t := ih (fun x hx => h x (List.mem_cons_of_mem c hx))
    rw [ih2]
    rfl

theorem assocGet_mem {ps : List (Char × Char)} {c d : Char} (h : assocGet ps c = some d) :
    (c, d) ∈ ps := by
  induction ps with
  | nil => cases h
  | cons p t ih =>
    unfold assocGet at h
    split at h
    · rename_i hpc
      have hd : p.2 = d := Option.some.inj h
      have hp : (c, d) = p := by
        rw [← hpc, ← hd]
    
      rw [hp]
      exact List.mem_cons_self p t
    · exact List.mem_cons_of_mem p (ih h)

theorem lowerPairs_props :
    ∀ p ∈ lowerPairs, p.2.toNat < 128 ∧ pyIsSpace p.1 = false ∧ pyIsSpace p.2 = false
      ∧ assocGet lowerPairs p.2 = none := by decide

theorem pyLowerChar_idem (c : Char) : pyLowerChar (pyLowerChar c) = pyLowerChar c := by
  unfold pyLowerChar
  cases hg : assocGet lowerPairs c with
  | none => simp [hg]
  | some d =>
    have hnone := (lowerPairs_props _ (assocGet_mem hg)).2.2.2
    simp [hg, hnone]

theorem pyIsSpace_pyLowerChar (c : Char) : pyIsSpace (pyLowerChar c) = pyIsSpace c := by
  unfold pyLowerChar
  cases hg : assocGet lowerPairs c with
  | none => simp
  | some d =>
    have hp := lowerPairs_props _ (assocGet_mem hg)
    simp [hp.2.1, hp.2.2.1]

theorem pyLowerChar_ascii {c : Char} (h : c.toNat < 128) : (pyLowerChar c).toNat < 128 := by
  unfold pyLowerChar
  cases hg : assocGet lowerPairs c with
  | none => simpa using h
  | some d =>
    have hd := (lowerPairs_props _ (assocGet_mem hg)).1
    simpa using hd

theorem dropWhile_dropWhile {β : Type} (p : β → Bool) (l : List β) :
    (l.dropWhile p).dropWhile p = l.dropWhile p := by
  induction l with
  | nil => rfl
  | cons a t ih =>
    cases hp : p a
    · simp [List.dropWhile_cons, hp]
    · simp [List.dropWhile_cons, hp, ih]

theorem dropWhile_append_singleton {β : Type} (p : β → Bool) (a : β) (ha : p a = false)
    (xs : List β) : (xs ++ [a]).dropWhile p = xs.dropWhile p ++ [a] := by
  induction xs with
  | nil => simp [List.dropWhile_cons, ha]
  | cons x t ih =>
    cases hx : p x
    · simp [List.dropWhile_cons, hx]
    · simp [List.dropWhile_cons, hx, ih]

theorem dropWhile_head_false {β : Type} (p : β → Bool) (l : List β) :
    l.dropWhile p = [] ∨ ∃ a t, l.dropWhile p = a :: t ∧ p a = false := by
  induction l with
  | nil => exact Or.inl rfl
  | cons x t ih =>
    cases hx : p x
    · exact Or.inr ⟨x, t, by simp [List.dropWhile_cons, hx], hx⟩
    · simpa [List.dropWhile_cons, hx] using ih

theorem dropWhile_pyStripL (l : List Char) :
    (pyStripL l).dropWhile pyIsSpace = pyStripL l := by
  unfold pyStripL stripLeftL
  rcases dropWhile_head_false pyIsSpace l with h | ⟨a, t, h, ha⟩
  · rw [h]
    rfl
  · rw [h, List.reverse_cons, dropWhile_append_singleton pyIsSpace a ha]
    rw [List.reverse_append]
    simp only [List.reverse_cons, List.reverse_nil, List.nil_append, List.singleton_append]
    rw [List.dropWhile_cons]
    simp [ha]

theorem pyStripL_idem (l : List Char) : pyStripL (pyStripL l) = pyStripL l := by
  have h1 : stripLeftL (pyStripL l) = pyStripL l := dropWhile_pyStripL l
  show ((stripLeftL (pyStripL l)).reverse.dropWhile pyIsSpace).reverse = pyStripL l
  rw [h1]
  have h2 : (pyStripL l).reverse = ((stripLeftL l).reverse).dropWhile pyIsSpace := by
    unfold pyStripL
    rw [List.reverse_reverse]
  rw [h2, dropWhile_dropWhile]
  rfl

theorem dropWhile_map_comm {f : Char → Char} (hf : ∀ c, pyIsSpace (f c) = pyIsSpace c)
    (l : List Char) : (l.map f).dropWhile pyIsSpace = (l.dropWhile pyIsSpace).map f := by
  induction l with
  | nil => rfl
  | cons a t ih =>
    rw [List.map_cons, List.dropWhile_cons, List.dropWhile_cons, hf]
    cases hp : pyIsSpace a
    · simp [hp]
    · simp [hp, ih]

theorem pyStripL_map_comm {f : Char → Char} (hf : ∀ c, pyIsSpace (f c) = pyIsSpace c)
    (l : List Char) : pyStripL (l.map f) = (pyStripL l).map f := by
  unfold pyStripL stripLeftL
  rw [dropWhile_map_comm hf, ← List.map_reverse, dropWhile_map_comm hf, ← List.map_reverse]

theorem mem_pyStripL_sub {l : List Char} {c : Char} (h : c ∈ pyStripL l) : c ∈ l := by
  unfold pyStripL stripLeftL at h
  rw [List.mem_reverse] at h
  have h2 := (List.dropWhile_sublist pyIsSpace).subset h
  rw [List.mem_reverse] at h2
  exact (List.dropWhile_sublist pyIsSpace).subset h2

theorem asciiL_pyStripL {l : List Char} (h : asciiL l) : asciiL (pyStripL l) :=
  fun c hc => h c (mem_pyStripL_sub hc)

theorem asciiL_map_lower {l : List Char} (h : asciiL l) : asciiL (l.map pyLowerChar) := by
  intro c hc
  rcases List.mem_map.mp hc with ⟨a, ha, rfl⟩
  exact pyLowerChar_ascii (h a ha)

theorem pynormalizeL_ascii_eq {l : List Char} (h : asciiL l) :
    pynormalizeL l = (pyStripL l).map pyLowerChar := by
  unfold pynormalizeL
  exact unidecL_ascii (asciiL_map_lower (asciiL_pyStripL h))

theorem pynormalizeL_idem {l : List Char} (h : asciiL l) :
    pynormalizeL (pynormalizeL l) = pynormalizeL l := by
  rw [pynormalizeL_ascii_eq h]
  have hy : asciiL ((pyStripL l).map pyLowerChar) := asciiL_map_lower (asciiL_pyStripL h)
  rw [pynormalizeL_ascii_eq hy]
  rw [pyStripL_map_comm pyIsSpace_pyLowerChar, pyStripL_idem, List.map_map]
  apply List.map_congr_left
  intro a _
  exact pyLowerChar_idem a

/-- C7 amended: idempotence holds for the normalized seed member only.  For
every ASCII seed term, its normalized form is itself among the generated
variants, and regenerating variants from that member yields exactly the
original variant set; for other members (generated plurals) regeneration
can produce strings outside the original set, as the counterexample
cat/cats/catses shows. -/
theorem C7_amended_idempotence_on_normalized_seed (x : String)
    (h : ∀ c ∈ x.data, c.toNat < 128) :
    pynormalize x ∈ generate_keyword_variants x
    ∧ generate_keyword_variants (pynormalize x) = generate_keyword_variants x := by
  constructor
  · show pynormalize x ∈ (variantsOfL (pynormalizeL x.data)).map (fun l => ⟨l⟩)
    exact List.mem_map_of_mem (fun l => (⟨l⟩ : String)) (self_mem_variantsOfL _)
  · show (variantsOfL (pynormalizeL (pynormalize x).data)).map (fun l => (⟨l⟩ : String))
        = (variantsOfL (pynormalizeL x.data)).map (fun l => (⟨l⟩ : String))
    have hd : (pynormalize x).data = pynormalizeL x.data := rfl
    rw [hd, pynormalizeL_idem h]

/-- Witness for C7's amended statement at the seed "cat". -/
theorem C7_witness :
    (∀ c ∈ "cat".data, c.toNat < 128)
    ∧ pynormalize "cat" ∈ generate_keyword_variants "cat"
    ∧ generate_keyword_variants (pynormalize "cat") = generate_keyword_variants "cat" := by
  have h := C7_amended_idempotence_on_normalized_seed "cat" (by decide)
  exact ⟨by decide, h.1, h.2⟩

/- ===================================================================
   Claims C8 and C9: training-set filter and enrichment edge case.
   =================================================================== -/

def dfC8 : DataFrame :=
  { columns := ["PROJECT_NUMBER", "total unique count"]
    rows := [[Value.str "P0", Value.int 0], [Value.str "P1", Value.int 1],
             [Value.str "P2", Value.int 0], [Value.str "P3", Value.int 3]] }

/-- C8 counterexample: with no output columns configured, every hypothesis
of the claim holds (non-empty table, required column present, every
configured output column trivially present, integer cutoff), yet
`filter_df` takes the soft-failure path and returns empty frames, so
retained + dropped = 0 ≠ 4 and the partition property fails as stated. -/
theorem C8_counterexample :
    filter_df dfC8 { ml_columns := [], cutoff_value := 0 } (some 1)
      = Except.ok (emptyDf, emptyDf, none)
    ∧ ¬ (emptyDf.rows.length + emptyDf.rows.length = dfC8.rows.length) := by
  exact ⟨rfl, by decide⟩

theorem filter_length_partition {β : Type} (l : List β) (p : β → Bool) :
    (l.filter p).length + (l.filter (fun x => !(p x))).length = l.length := by
  induction l with
  | nil => rfl
  | cons a t ih =>
    cases hp : p a
    · rw [List.filter_cons_of_neg (by simp [hp]), List.filter_cons_of_pos (by simp [hp])]
      simp only [List.length_cons]
      omega
    · rw [List.filter_cons_of_pos (by simp [hp]), List.filter_cons_of_neg (by simp [hp])]
      simp only [List.length_cons]
      omega

theorem decide_lt_eq_not_decide_le (a b : Int) :
    decide (a < b) = !(decide (b ≤ a)) := by
  by_cases h : b ≤ a
  · simp [h, not_lt.mpr h]
  · simp [h, not_le.mp h]

/-- C8 amended: with at least one output column configured (and the
enriched table's count column integer-valued), `filter_df` partitions the
input completely — retained rows are exactly those with count at least the
cutoff, dropped rows exactly those below, both projected onto the
configured columns, and the row counts sum to the input row count. -/
theorem C8_amended_filter_partition (df : DataFrame) (config : FinalizeConfig)
    (co : Option Int)
    (hrows : df.rows ≠ [])
    (hreq : "total unique count" ∈ df.columns)
    (hml : config.ml_columns ≠ [])
    (hmlcols : ∀ c ∈ config.ml_columns, c ∈ df.columns)
    (hint : ∀ r ∈ df.rows, isIntCell (getCell df r "total unique count") = true) :
    filter_df df config co
      = Except.ok
        ({ columns := config.ml_columns
           rows := (df.rows.filter (fun r =>
               co.getD config.cutoff_value
                 ≤ cellInt (getCell df r "total unique count"))).map
             (projectRow df config.ml_columns) },
         { columns := config.ml_columns
           rows := (df.rows.filter (fun r =>
               cellInt (getCell df r "total unique count")
                 < co.getD config.cutoff_value)).map
             (projectRow df config.ml_columns) },
         some { ml_columns_used := config.ml_columns
                cutoff_value := co.getD config.cutoff_value
                total_input_rows := df.rows.length
                total_retained_rows := (df.rows.filter (fun r =>
                    co.getD config.cutoff_value
                      ≤ cellInt (getCell df r "total unique count"))).length
                total_dropped_rows := (df.rows.filter (fun r =>
                    cellInt (getCell df r "total unique count")
                      < co.getD config.cutoff_value)).length })
    ∧ (df.rows.filter (fun r =>
          co.getD config.cutoff_value ≤ cellInt (getCell df r "total unique count"))).length
        + (df.rows.filter (fun r =>
            cellInt (getCell df r "total unique count") < co.getD config.cutoff_value)).length
        = df.rows.length := by
  have hre : df.rows.isEmpty = false := by
    cases hr : df.rows with
    | nil => exact absurd hr hrows
    | cons a t => rfl
  have hce : df.columns.isEmpty = false := by
    cases hc : df.columns with
    | nil =>
      rw [hc] at hreq
      cases hreq
    | cons a t => rfl
  have hmle : config.ml_columns.isEmpty = false := by
    cases hm : config.ml_columns with
    | nil => exact absurd hm hml
    | cons a t => rfl
  have hmiss : (config.ml_columns.filter (fun c => c ∉ df.columns)) = [] := by
    rw [List.filter_eq_nil_iff]
    intro c hc
    simp [hmlcols c hc]
  have hall : df.rows.all (fun r => isIntCell (getCell df r "total unique count")) = true := by
    rw [List.all_eq_true]
    exact hint
  constructor
  · unfold filter_df
    rw [if_neg (by rw [hre, hce]; exact Bool.false_ne_true), if_neg (not_not_intro hreq),
      if_neg (by rw [hmle]; exact Bool.false_ne_true),
      if_neg (by rw [hmiss]; exact Bool.false_ne_true), if_pos hall]
  · have hcongr : df.rows.filter (fun r =>
        cellInt (getCell df r "total unique count") < co.getD config.cutoff_value)
        = df.rows.filter (fun r =>
          !(decide (co.getD config.cutoff_value
              ≤ cellInt (getCell df r "total unique count")))) := by
      apply List.filter_congr
      intro r _
      exact decide_lt_eq_not_decide_le _ _
    rw [hcongr]
    exact filter_length_partition df.rows _

/-- Witness for C8's amended statement at the spec's scenario: counts
[0, 1, 0, 3] with cutoff 1 retain 2 rows and drop 2 rows. -/
theorem C8_witness :
    (dfC8.rows ≠ [] ∧ "total unique count" ∈ dfC8.columns)
    ∧ (dfC8.rows.filter (fun r =>
          (some (1 : Int)).getD (0 : Int)
            ≤ cellInt (getCell dfC8 r "total unique count"))).length
        + (dfC8.rows.filter (fun r =>
            cellInt (getCell dfC8 r "total unique count")
              < (some (1 : Int)).getD (0 : Int))).length
        = dfC8.rows.length := by
  have h := C8_amended_filter_partition dfC8
    { ml_columns := ["PROJECT_NUMBER"], cutoff_value := 0 } (some 1)
    (by decide) (by decide) (by decide) (by decide) (by decide)
  exact ⟨⟨by decide, by decide⟩, h.2⟩

def dfC9 : DataFrame := { columns := ["PROJECT_NUMBER"], rows := [[Value.str "X1"]] }

def configC9 : EnrichConfig :=
  { text_columns := ["PROJECT_TITLE", "ABSTRACT_TEXT"], workers := 4 }

/-- C9 (code_bug evidence): when none of the configured text columns is
present, `enrich_with_keyword_metrics` returns the table unmodified — but
as a bare DataFrame, not the (table, summary) pair that the spec's
component contract requires and that its caller
(`keywords_pipeline.py`, which unpacks two values) expects. -/
theorem C9_bare_table_on_missing_text_columns
    (extract : String → List String) (df : DataFrame) (config : EnrichConfig)
    (treatments diseases : List String)
    (h : ∀ c ∈ config.text_columns, c ∉ df.columns) :
    enrich_with_keyword_metrics extract df config treatments diseases
      = EnrichResult.bare df := by
  have hav : config.text_columns.filter (fun c => decide (c ∈ df.columns)) = [] := by
    rw [List.filter_eq_nil_iff]
    intro c hc
    simp only [decide_eq_true_eq]
    exact h c hc
  unfold enrich_with_keyword_metrics
  rw [hav]
  rfl

/-- Witness for C9 at a concrete table with none of the configured text
columns. -/
theorem C9_witness :
    (∀ c ∈ configC9.text_columns, c ∉ dfC9.columns)
    ∧ enrich_with_keyword_metrics (fun _ => []) dfC9 configC9 [] []
      = EnrichResult.bare dfC9 := by
  exact ⟨by decide,
    C9_bare_table_on_missing_text_columns (fun _ => []) dfC9 configC9 [] [] (by decide)⟩
